import Mathlib

/-
Shallow embedding of the Hyderabad air-quality dashboard core (src/app.py):
the data loader/normalizer `load_data` and the AQI category classifier of
the "AQI Category Analysis" page.  Machine floats of the source are modelled
as rationals; pandas NaN (absent AQI cells) as `Option.none`; a pandas
DataFrame as a list of rows.
-/

namespace HydAir

/-- A calendar date as produced by `pd.to_datetime(..., format='%Y-%b')`:
year, month number (1..12) and day of month. -/
structure Date where
  year : Nat
  month : Nat
  day : Nat
deriving DecidableEq

/-- Chronological comparison of dates (lexicographic on year, month, day),
the order used by `sort_values('Date')`. -/
def dateLe (a b : Date) : Prop :=
  a.year < b.year ∨
    (a.year = b.year ∧ (a.month < b.month ∨ (a.month = b.month ∧ a.day ≤ b.day)))

instance : DecidableRel dateLe := fun a b => by
  unfold dateLe; infer_instance

/-- One row of the melted long-format frame after the `Date` column is added:
an Observation `{Location, Month, Year, AQI, Date}` (§3 of the design). -/
structure Obs where
  location : String
  month : String
  year : Nat
  aqi : Option ℚ
  date : Date
deriving DecidableEq

/-- The 12 month abbreviations recognized by the `%b` format directive. -/
def monthAbbrevs : List String :=
  ["Jan", "Feb", "Mar", "Apr", "May", "Jun",
   "Jul", "Aug", "Sep", "Oct", "Nov", "Dec"]

/-- ASCII lower-casing of one character (strptime matches month names
case-insensitively). -/
def charLower (c : Char) : Char :=
  if 'A' ≤ c ∧ c ≤ 'Z' then Char.ofNat (c.toNat + 32) else c

/-- ASCII lower-casing of a string. -/
def strLower (s : String) : String := ⟨s.data.map charLower⟩

/-- Month-abbreviation parsing of `pd.to_datetime(..., format='%Y-%b')`:
case-insensitive match against the 12 abbreviations (as in strptime),
returning the month number 1..12, or `none` for an unrecognized value. -/
def monthNumber (s : String) : Option Nat :=
  (monthAbbrevs.findIdx? (fun m => strLower m == strLower s)).map (· + 1)

/-- One year's CSV after `pd.read_csv`: a `Month` column plus one column per
monitoring location; `rows` holds, per table row, the `Month` cell and the
AQI cells aligned with `locations` (absent cells are `none`). -/
structure YearTable where
  locations : List String
  rows : List (String × List (Option ℚ))
deriving DecidableEq

/-- Cell access in the concatenated wide frame: a column absent from this
year's table reads as NaN (`none`), as produced by `pd.concat` on frames
with differing column sets. -/
def getCell (cells : List (String × Option ℚ)) (loc : String) : Option ℚ :=
  match cells.lookup loc with
  | some v => v
  | none => none

/-- List concatenation of a family of lists, used to model `pd.concat` and
the column-major layout of `pd.melt`. -/
def concatMap (f : α → List β) : List α → List β
  | [] => []
  | a :: l => f a ++ concatMap f l

/-- First-occurrence deduplication (auxiliary): pandas keeps the first
occurrence when forming the union of column sets across concatenated
frames. -/
def dedupFirstAux [DecidableEq α] (seen : List α) : List α → List α
  | [] => []
  | a :: l => if a ∈ seen then dedupFirstAux seen l else a :: dedupFirstAux (a :: seen) l

/-- First-occurrence deduplication of a list. -/
def dedupFirst [DecidableEq α] (l : List α) : List α :=
  dedupFirstAux [] l

/-- The union of the location columns across all per-year sources, in order
of first appearance: the value columns of the concatenated wide frame. -/
def allLocations (srcs : List (Nat × YearTable)) : List String :=
  dedupFirst (concatMap (fun s => s.2.locations) srcs)

/-- The rows of the concatenated wide frame (`pd.concat(dfs.values())` after
each frame was tagged with `df['Year'] = year`): per row, the `Month` cell,
the year tag, and the location cells of that year's table. -/
def combinedRows (srcs : List (Nat × YearTable)) :
    List (String × Nat × List (String × Option ℚ)) :=
  concatMap (fun s => s.2.rows.map (fun r => (r.1, s.1, s.2.locations.zip r.2))) srcs

/-- A melted row before the `Date` column exists: `{Location, Month, Year, AQI}`. -/
structure PreObs where
  location : String
  month : String
  year : Nat
  aqi : Option ℚ
deriving DecidableEq

/-- The melted row contributed by wide row `r` for location column `loc`. -/
def mkPre (loc : String) (r : String × Nat × List (String × Option ℚ)) : PreObs :=
  ⟨loc, r.1, r.2.1, getCell r.2.2 loc⟩

/-- `pd.melt(combined_df, id_vars=['Month','Year'], var_name='Location',
value_name='AQI')`: for each location column in turn, all wide rows in
original order (melt output is column-major). -/
def melt (srcs : List (Nat × YearTable)) : List PreObs :=
  concatMap (fun loc => (combinedRows srcs).map (mkPre loc)) (allLocations srcs)

/-- The error raised by `pd.to_datetime` when a `Month` value does not match
the `%b` directive; it names the offending row. -/
structure DateParseError where
  month : String
  year : Nat
  location : String
deriving DecidableEq

/-- Deriving the `Date` column: every melted row's `Year`/`Month` pair is
parsed with format `%Y-%b`; the first unrecognized `Month` value aborts the
whole computation (the `to_datetime` call raises) and no frame is produced. -/
def parseDates : List PreObs → Except DateParseError (List Obs)
  | [] => .ok []
  | p :: rest =>
    match monthNumber p.month with
    | none => .error ⟨p.month, p.year, p.location⟩
    | some mn =>
      match parseDates rest with
      | .error e => .error e
      | .ok os => .ok (⟨p.location, p.month, p.year, p.aqi, ⟨p.year, mn, 1⟩⟩ :: os)

/-- Row comparison used by `melted_df.sort_values('Date')`. -/
def obsLe (a b : Obs) : Prop := dateLe a.date b.date

instance : DecidableRel obsLe := fun a b => by
  unfold obsLe; infer_instance

/-- The loader `load_data` of src/app.py applied to the resolved per-year
sources (year, table), years in ascending order as produced by the
`for year in years` loop: concatenate, melt, derive `Date`, sort by `Date`.
The source's `sort_values` uses numpy's default quicksort; the embedding
uses insertion sort, which agrees with it up to the relative order of
equal-`Date` rows (that tie order is not modelled). -/
def load_data (srcs : List (Nat × YearTable)) : Except DateParseError (List Obs) :=
  match parseDates (melt srcs) with
  | .error e => .error e
  | .ok l => .ok (List.insertionSort obsLe l)

/-- The `aqi_categories` dict of the "AQI Category Analysis" page: band name,
lower bound, upper bound (`none` renders `float("inf")`). -/
def aqiCategories : List (String × ℚ × Option ℚ) :=
  [("GOOD", 0, some 50),
   ("SATISFACTORY", 51, some 100),
   ("MODERATE", 101, some 200),
   ("POOR", 201, some 300),
   ("VERY POOR", 301, some 400),
   ("SEVERE", 401, none)]

/-- Membership of a present AQI value in a band:
`(AQI >= lower_bound) & (AQI <= upper_bound)`, where an infinite upper
bound (`none`) is satisfied by every value. -/
def inBand (lo : ℚ) (hi : Option ℚ) (x : ℚ) : Bool :=
  decide (lo ≤ x) &&
    (match hi with
     | some h => decide (x ≤ h)
     | none => true)

/-- The row predicate of the boolean-mask filter
`melted_df[(melted_df["AQI"] >= lower_bound) & (melted_df["AQI"] <= upper_bound)]`:
a NaN AQI compares false on both sides, so absent values never match. -/
def bandPred (lo : ℚ) (hi : Option ℚ) (o : Obs) : Bool :=
  match o.aqi with
  | some x => inBand lo hi x
  | none => false

/-- `filtered_df`: the rows of the canonical frame whose AQI lies in the
selected band, in frame order (boolean-mask filtering preserves row order). -/
def filterBand (lo : ℚ) (hi : Option ℚ) (l : List Obs) : List Obs :=
  l.filter (bandPred lo hi)

/-- The groupby key of `filtered_df.groupby(["Location", "Year"])`. -/
def obsPair (o : Obs) : String × Nat := (o.location, o.year)

/-- `filtered_df.groupby(["Location", "Year"]).size()`: one entry per
`(Location, Year)` pair occurring in the filtered frame, carrying the number
of its rows (group-key order left unmodelled; it is presentational). -/
def groupSizes (l : List Obs) : List ((String × Nat) × Nat) :=
  (dedupFirst (l.map obsPair)).map
    (fun p => (p, l.countP (fun o => decide (obsPair o = p))))

/-- The row labels of `chart_data` after `.unstack(fill_value=0)`: the
locations occurring in the filtered frame. -/
def chartRowLabels (l : List Obs) : List String :=
  dedupFirst (l.map (fun o => o.location))

/-- The column labels of `chart_data`: the years occurring in the filtered
frame. -/
def chartColLabels (l : List Obs) : List Nat :=
  dedupFirst (l.map (fun o => o.year))

/-- The entry of `chart_data` at row `L`, column `Y` (defined when `L` is a
row label and `Y` a column label): the group size when the pair grouped,
else the `fill_value` 0. -/
def chartEntry (l : List Obs) (L : String) (Y : Nat) : Nat :=
  match (groupSizes l).find? (fun e => decide (e.1 = (L, Y))) with
  | some e => e.2
  | none => 0

/-! ### Sample sources, used as concrete instantiations -/

/-- The two-month single-location source of the spec's first scenario. -/
def sampleTable : YearTable := ⟨["A"], [("Jan", [some 40]), ("Feb", [some 120])]⟩

/-- A one-year source family around `sampleTable`. -/
def sampleSrcs : List (Nat × YearTable) := [(2016, sampleTable)]

/-- The canonical collection loaded from `sampleSrcs`. -/
def sampleCanonical : List Obs :=
  match load_data sampleSrcs with
  | .ok l => l
  | .error _ => []

/-- A canonical collection with two locations, of which only `A` has a
reading in the GOOD band. -/
def sampleB : List Obs :=
  [⟨"A", "Jan", 2016, some 40, ⟨2016, 1, 1⟩⟩,
   ⟨"B", "Jan", 2016, some 120, ⟨2016, 1, 1⟩⟩]

/-- A full-year single-location source: one row per calendar month. -/
def fullTable : YearTable := ⟨["A"], monthAbbrevs.map (fun m => (m, [some 40]))⟩

/-- A one-year source family around `fullTable`. -/
def fullSrcs : List (Nat × YearTable) := [(2016, fullTable)]

/-- The canonical collection loaded from `fullSrcs`. -/
def fullCanonical : List Obs :=
  match load_data fullSrcs with
  | .ok l => l
  | .error _ => []

/-- A source with an unrecognized month abbreviation and one location. -/
def badTable : YearTable := ⟨["A"], [("Jann", [some 40])]⟩

/-- A one-year source family around `badTable`. -/
def badSrcs : List (Nat × YearTable) := [(2016, badTable)]

/-- A source with an unrecognized month abbreviation but no location
columns at all. -/
def monthlessSrcs : List (Nat × YearTable) := [(2016, ⟨[], [("Jann", [])]⟩)]

/-- An Observation with the non-integer AQI value 50.5, which lies between
the GOOD and SATISFACTORY bands. -/
def obsGap : Obs := ⟨"A", "Jan", 2016, some (101 / 2), ⟨2016, 1, 1⟩⟩

/-! ### Auxiliary lemmas -/

theorem mem_dedupFirstAux [DecidableEq α] (seen l : List α) (x : α) :
    x ∈ dedupFirstAux seen l ↔ x ∈ l ∧ x ∉ seen := by
  induction l generalizing seen with
  | nil => simp [dedupFirstAux]
  | cons a l ih =>
    simp only [dedupFirstAux]
    by_cases ha : a ∈ seen
    · rw [if_pos ha, ih]
      simp only [List.mem_cons]
      constructor
      · rintro ⟨h1, h2⟩
        exact ⟨Or.inr h1, h2⟩
      · rintro ⟨h1 | h1, h2⟩
        · subst h1; exact absurd ha h2
        · exact ⟨h1, h2⟩
    · rw [if_neg ha]
      simp only [List.mem_cons, ih]
      constructor
      · rintro (rfl | ⟨h1, h2⟩)
        · exact ⟨Or.inl rfl, ha⟩
        · exact ⟨Or.inr h1, fun hs => h2 (Or.inr hs)⟩
      · rintro ⟨rfl | h1, h2⟩
        · exact Or.inl rfl
        · by_cases hxa : x = a
          · exact Or.inl hxa
          · refine Or.inr ⟨h1, fun hs => ?_⟩
            rcases hs with h | h
            · exact hxa h
            · exact h2 h

theorem nodup_dedupFirstAux [DecidableEq α] (seen l : List α) :
    (dedupFirstAux seen l).Nodup := by
  induction l generalizing seen with
  | nil => simp [dedupFirstAux]
  | cons a l ih =>
    simp only [dedupFirstAux]
    by_cases ha : a ∈ seen
    · rw [if_pos ha]; exact ih seen
    · rw [if_neg ha]
      refine List.nodup_cons.2 ⟨?_, ih (a :: seen)⟩
      intro hmem
      rcases (mem_dedupFirstAux (a :: seen) l a).1 hmem with ⟨-, h2⟩
      exact h2 (List.mem_cons_self a seen)

theorem mem_dedupFirst [DecidableEq α] (l : List α) (x : α) :
    x ∈ dedupFirst l ↔ x ∈ l := by
  simp [dedupFirst, mem_dedupFirstAux]

theorem nodup_dedupFirst [DecidableEq α] (l : List α) :
    (dedupFirst l).Nodup :=
  nodup_dedupFirstAux [] l

theorem mem_concatMap (f : α → List β) (l : List α) (b : β) :
    b ∈ concatMap f l ↔ ∃ a ∈ l, b ∈ f a := by
  induction l with
  | nil => simp [concatMap]
  | cons a l ih => simp [concatMap, ih, List.mem_append, or_and_right, exists_or]

theorem countP_concatMap (f : α → List β) (p : β → Bool) (l : List α) :
    (concatMap f l).countP p = (l.map (fun a => (f a).countP p)).sum := by
  induction l with
  | nil => simp [concatMap]
  | cons a l ih => simp [concatMap, List.countP_append, ih]

theorem countP_ext (p q : α → Bool) (l : List α) (h : ∀ a ∈ l, p a = q a) :
    l.countP p = l.countP q := by
  induction l with
  | nil => simp
  | cons a l ih =>
    simp only [List.countP_cons, h a (List.mem_cons_self a l),
      ih (fun x hx => h x (List.mem_cons_of_mem a hx))]

theorem sum_map_eq_single {K : Type} [DecidableEq K] (xs : List α) (f : α → ℕ)
    (key : α → K) (k : K) (x : α)
    (nd : (xs.map key).Nodup) (hx : x ∈ xs) (hkey : key x = k)
    (hz : ∀ y ∈ xs, key y ≠ k → f y = 0) :
    (xs.map f).sum = f x := by
  induction xs with
  | nil => cases hx
  | cons a xs ih =>
    have nd' : (xs.map key).Nodup := (List.nodup_cons.1 nd).2
    have hka : key a ∉ xs.map key := (List.nodup_cons.1 nd).1
    rcases List.mem_cons.1 hx with rfl | hx'
    · have hzero : ∀ y ∈ xs, f y = 0 := by
        intro y hy
        refine hz y (List.mem_cons_of_mem x hy) ?_
        intro hk
        exact hka (hkey ▸ hk ▸ List.mem_map_of_mem key hy)
      have hsum : (xs.map f).sum = 0 := by
        apply List.sum_eq_zero
        intro v hv
        rcases List.mem_map.1 hv with ⟨y, hy, rfl⟩
        exact hzero y hy
      simp [hsum]
    · have hak : key a ≠ k := by
        intro hk
        exact hka (hk ▸ hkey ▸ List.mem_map_of_mem key hx')
      have ha0 : f a = 0 := hz a (List.mem_cons_self a xs) hak
      have hrec := ih nd' hx' (fun y hy hk => hz y (List.mem_cons_of_mem a hy) hk)
      simp [ha0, hrec]

theorem parseDates_countP (ps : List PreObs) (os : List Obs)
    (q : Obs → Bool) (p' : PreObs → Bool)
    (hqp : ∀ pre mn, monthNumber pre.month = some mn →
      q ⟨pre.location, pre.month, pre.year, pre.aqi, ⟨pre.year, mn, 1⟩⟩ = p' pre)
    (h : parseDates ps = .ok os) :
    os.countP q = ps.countP p' := by
  induction ps generalizing os with
  | nil =>
    simp only [parseDates, Except.ok.injEq] at h
    subst h
    simp
  | cons p ps ih =>
    cases hm : monthNumber p.month with
    | none =>
      simp only [parseDates, hm] at h
      exact Except.noConfusion h
    | some mn =>
      simp only [parseDates, hm] at h
      cases hr : parseDates ps with
      | error e =>
        simp only [hr] at h
        exact Except.noConfusion h
      | ok os' =>
        simp only [hr, Except.ok.injEq] at h
        subst h
        rw [List.countP_cons, List.countP_cons, ih os' hr, hqp p mn hm]

theorem parseDates_mem (ps : List PreObs) (os : List Obs)
    (h : parseDates ps = .ok os) :
    ∀ o ∈ os, ∃ mn, monthNumber o.month = some mn ∧ o.date = ⟨o.year, mn, 1⟩ := by
  induction ps generalizing os with
  | nil =>
    simp only [parseDates, Except.ok.injEq] at h
    subst h
    simp
  | cons p ps ih =>
    cases hm : monthNumber p.month with
    | none =>
      simp only [parseDates, hm] at h
      exact Except.noConfusion h
    | some mn =>
      simp only [parseDates, hm] at h
      cases hr : parseDates ps with
      | error e =>
        simp only [hr] at h
        exact Except.noConfusion h
      | ok os' =>
        simp only [hr, Except.ok.injEq] at h
        subst h
        intro o ho
        rcases List.mem_cons.1 ho with rfl | ho'
        · exact ⟨mn, hm, rfl⟩
        · exact ih os' hr o ho'

theorem parseDates_mem_src (ps : List PreObs) (os : List Obs)
    (h : parseDates ps = .ok os) :
    ∀ o ∈ os, ∃ p ∈ ps,
      o.location = p.location ∧ o.month = p.month ∧ o.year = p.year ∧ o.aqi = p.aqi := by
  induction ps generalizing os with
  | nil =>
    simp only [parseDates, Except.ok.injEq] at h
    subst h
    simp
  | cons p ps ih =>
    cases hm : monthNumber p.month with
    | none =>
      simp only [parseDates, hm] at h
      exact Except.noConfusion h
    | some mn =>
      simp only [parseDates, hm] at h
      cases hr : parseDates ps with
      | error e =>
        simp only [hr] at h
        exact Except.noConfusion h
      | ok os' =>
        simp only [hr, Except.ok.injEq] at h
        subst h
        intro o ho
        rcases List.mem_cons.1 ho with rfl | ho'
        · exact ⟨p, List.mem_cons_self p ps, rfl, rfl, rfl, rfl⟩
        · rcases ih os' hr o ho' with ⟨p', hp', hfields⟩
          exact ⟨p', List.mem_cons_of_mem p hp', hfields⟩

theorem parseDates_error_of_bad (ps : List PreObs)
    (hbad : ∃ p ∈ ps, monthNumber p.month = none) :
    ∃ e : DateParseError, parseDates ps = .error e ∧ monthNumber e.month = none := by
  induction ps with
  | nil =>
    rcases hbad with ⟨p, hp, -⟩
    cases hp
  | cons p ps ih =>
    cases hm : monthNumber p.month with
    | none =>
      refine ⟨⟨p.month, p.year, p.location⟩, ?_, hm⟩
      simp only [parseDates, hm]
    | some mn =>
      rcases hbad with ⟨p', hp', hbad'⟩
      rcases List.mem_cons.1 hp' with rfl | hp''
      · rw [hm] at hbad'
        cases hbad'
      · rcases ih ⟨p', hp'', hbad'⟩ with ⟨e, he, hem⟩
        refine ⟨e, ?_, hem⟩
        simp only [parseDates, hm, he]

theorem load_data_ok (srcs : List (Nat × YearTable)) (canonical : List Obs)
    (h : load_data srcs = .ok canonical) :
    ∃ os, parseDates (melt srcs) = .ok os ∧
      canonical = List.insertionSort obsLe os := by
  unfold load_data at h
  cases hr : parseDates (melt srcs) with
  | error e =>
    simp only [hr] at h
    exact Except.noConfusion h
  | ok os =>
    simp only [hr, Except.ok.injEq] at h
    exact ⟨os, rfl, h.symm⟩

instance : IsTotal Obs obsLe :=
  ⟨by intro a b; unfold obsLe dateLe; omega⟩

instance : IsTrans Obs obsLe :=
  ⟨by intro a b c hab hbc; unfold obsLe dateLe at hab hbc ⊢; omega⟩

theorem eq_of_fst_nodup {β : Type} (srcs : List (Nat × β))
    (hnd : (srcs.map Prod.fst).Nodup)
    (s1 s2 : Nat × β) (h1 : s1 ∈ srcs) (h2 : s2 ∈ srcs) (hk : s1.1 = s2.1) :
    s1 = s2 := by
  induction srcs with
  | nil => cases h1
  | cons a l ih =>
    have ha : a.1 ∉ l.map Prod.fst := (List.nodup_cons.1 hnd).1
    have hl : (l.map Prod.fst).Nodup := (List.nodup_cons.1 hnd).2
    rcases List.mem_cons.1 h1 with rfl | h1'
    · rcases List.mem_cons.1 h2 with rfl | h2'
      · rfl
      · exact absurd (hk ▸ List.mem_map_of_mem Prod.fst h2') ha
    · rcases List.mem_cons.1 h2 with rfl | h2'
      · exact absurd (hk ▸ List.mem_map_of_mem Prod.fst h1') ha
      · exact ih hl h1' h2'

theorem getCell_not_mem (locs : List String) (vals : List (Option ℚ)) (L : String)
    (h : L ∉ locs) : getCell (locs.zip vals) L = none := by
  unfold getCell
  have hnone : (locs.zip vals).lookup L = none := by
    induction locs generalizing vals with
    | nil => simp
    | cons a locs ih =>
      cases vals with
      | nil => simp
      | cons v vs =>
        have hLa : L ≠ a := fun he => h (he ▸ List.mem_cons_self a locs)
        have h' : L ∉ locs := fun hm => h (List.mem_cons_of_mem a hm)
        have hbeq : (L == a) = false := beq_eq_false_iff_ne.mpr hLa
        simp only [List.zip_cons_cons, List.lookup, hbeq]
        exact ih vs h'
  rw [hnone]

theorem bandPred_eq (lo : ℚ) (hi : Option ℚ) (o : Obs) :
    bandPred lo hi o = true ↔
      ∃ x : ℚ, o.aqi = some x ∧ lo ≤ x ∧ ∀ h : ℚ, hi = some h → x ≤ h := by
  cases ha : o.aqi with
  | none => simp [bandPred, ha]
  | some x =>
    cases hi with
    | none =>
      simp [bandPred, ha, inBand]
    | some hb =>
      simp only [bandPred, ha, inBand, Bool.and_eq_true, decide_eq_true_eq,
        Option.some.injEq]
      constructor
      · rintro ⟨h1, h2⟩
        exact ⟨x, rfl, h1, fun h hh => hh ▸ h2⟩
      · rintro ⟨x', hx', h1, h2⟩
        subst hx'
        exact ⟨h1, h2 hb rfl⟩

theorem find_map_pair {K : Type} [DecidableEq K] (ps : List K) (g : K → ℕ) (k : K) :
    ((ps.map (fun p => (p, g p))).find? (fun e => decide (e.1 = k)))
      = if k ∈ ps then some (k, g k) else none := by
  induction ps with
  | nil => simp
  | cons a ps ih =>
    by_cases hak : a = k
    · subst hak
      rw [List.map_cons, List.find?_cons_of_pos _ (by simp)]
      rw [if_pos (List.mem_cons_self a ps)]
    · rw [List.map_cons, List.find?_cons_of_neg _ (by simp [hak]), ih]
      by_cases hk : k ∈ ps
      · rw [if_pos hk, if_pos (List.mem_cons_of_mem a hk)]
      · rw [if_neg hk, if_neg ?_]
        intro hmem
        rcases List.mem_cons.1 hmem with h | h
        · exact hak h.symm
        · exact hk h

theorem chartEntry_eq_countP (f : List Obs) (L : String) (Y : Nat) :
    chartEntry f L Y = f.countP (fun o => decide (o.location = L ∧ o.year = Y)) := by
  unfold chartEntry groupSizes
  rw [find_map_pair (dedupFirst (f.map obsPair))
    (fun p => f.countP (fun o => decide (obsPair o = p))) (L, Y)]
  have hpt : ∀ o : Obs,
      (decide (obsPair o = (L, Y))) = (decide (o.location = L ∧ o.year = Y)) := by
    intro o
    apply decide_eq_decide.mpr
    unfold obsPair
    rw [Prod.mk.injEq]
  by_cases hp : (L, Y) ∈ dedupFirst (f.map obsPair)
  · rw [if_pos hp]
    exact countP_ext _ _ f (fun o _ => hpt o)
  · rw [if_neg hp]
    symm
    rw [List.countP_eq_zero]
    intro o ho hpred
    apply hp
    rw [mem_dedupFirst]
    rw [decide_eq_true_eq] at hpred
    refine List.mem_map.2 ⟨o, ho, ?_⟩
    unfold obsPair
    rw [hpred.1, hpred.2]

theorem mem_chartRowLabels (f : List Obs) (L : String) :
    L ∈ chartRowLabels f ↔ ∃ o ∈ f, o.location = L := by
  rw [chartRowLabels, mem_dedupFirst, List.mem_map]

theorem mem_chartColLabels (f : List Obs) (Y : Nat) :
    Y ∈ chartColLabels f ↔ ∃ o ∈ f, o.year = Y := by
  rw [chartColLabels, mem_dedupFirst, List.mem_map]

theorem lookup_none_of_not_mem_keys {β : Type} (l : List (String × β)) (a : String)
    (h : a ∉ l.map Prod.fst) : l.lookup a = none := by
  induction l with
  | nil => simp
  | cons kv l ih =>
    cases kv with
    | mk k v =>
      have hne : a ≠ k := by
        intro he
        exact h (he ▸ List.mem_map_of_mem Prod.fst (List.mem_cons_self (k, v) l))
      have hbeq : (a == k) = false := beq_eq_false_iff_ne.mpr hne
      simp only [List.lookup, hbeq]
      apply ih
      intro hmem
      exact h (List.mem_cons_of_mem _ hmem)

/-! ### Claim theorems -/

/-- C1 (counterexample): the claim that every `(Location, Year)` pair of the
canonical collection appears in the counting table fails: in `sampleB`
location `B` (with year 2016) occurs in the canonical collection, yet after
filtering with the GOOD band `B` is not a row label of `chart_data` at all —
the groupby runs over the filtered frame only, so `B` gets no all-zero row. -/
theorem chart_table_missing_location :
    ("B" ∈ sampleB.map (fun o => o.location)) ∧
    (2016 ∈ sampleB.map (fun o => o.year)) ∧
    "B" ∉ chartRowLabels (filterBand 0 (some 50) sampleB) := by
  decide

/-- C1 (amended): the counting table built by
`filtered_df.groupby(["Location","Year"]).size().unstack(fill_value=0)`
has row labels exactly the locations occurring in the filtered list and
column labels exactly the years occurring in the filtered list; every entry
at such a label pair equals the number of filtered Observations with that
location and year (0, the fill value, when the pair itself never occurs).
Pairs whose location or year occurs nowhere in the filtered list have no
entry. -/
theorem chart_table_entries (lo : ℚ) (hi : Option ℚ) (c : List Obs) :
    (∀ (L : String) (Y : Nat),
      chartEntry (filterBand lo hi c) L Y
        = (filterBand lo hi c).countP
            (fun o => decide (o.location = L ∧ o.year = Y))) ∧
    (∀ L : String, L ∈ chartRowLabels (filterBand lo hi c) ↔
      ∃ o ∈ filterBand lo hi c, o.location = L) ∧
    (∀ Y : Nat, Y ∈ chartColLabels (filterBand lo hi c) ↔
      ∃ o ∈ filterBand lo hi c, o.year = Y) :=
  ⟨fun L Y => chartEntry_eq_countP (filterBand lo hi c) L Y,
   fun L => mem_chartRowLabels (filterBand lo hi c) L,
   fun Y => mem_chartColLabels (filterBand lo hi c) Y⟩

/-- C1 (witness): on `sampleB` with the GOOD band the table entry at
`("A", 2016)` is the count of matching filtered Observations, namely 1. -/
theorem chart_table_entries_witness :
    chartEntry (filterBand 0 (some 50) sampleB) "A" 2016 = 1 := by
  rw [(chart_table_entries 0 (some 50) sampleB).1 "A" 2016]
  decide

/-- C2 (counterexample): the six bands do not partition `[0, ∞)`: the
Observation `obsGap` has present, non-negative AQI value 50.5, yet the
number of bands whose range contains it is 0, not 1 — 50.5 falls in the gap
between GOOD `[0, 50]` and SATISFACTORY `[51, 100]`. -/
theorem aqi_bands_gap_value :
    obsGap.aqi = some (101 / 2 : ℚ) ∧ (0 : ℚ) ≤ 101 / 2 ∧
    aqiCategories.countP (fun b => bandPred b.2.1 b.2.2 obsGap) = 0 := by
  refine ⟨rfl, by norm_num, ?_⟩
  have h1 : bandPred 0 (some 50) obsGap = false := by
    have hx : ¬ ((101 : ℚ) / 2 ≤ 50) := by norm_num
    simp [bandPred, obsGap, inBand, hx]
  have h2 : bandPred 51 (some 100) obsGap = false := by
    have hx : ¬ ((51 : ℚ) ≤ 101 / 2) := by norm_num
    simp [bandPred, obsGap, inBand, hx]
  have h3 : bandPred 101 (some 200) obsGap = false := by
    have hx : ¬ ((101 : ℚ) ≤ 101 / 2) := by norm_num
    simp [bandPred, obsGap, inBand, hx]
  have h4 : bandPred 201 (some 300) obsGap = false := by
    have hx : ¬ ((201 : ℚ) ≤ 101 / 2) := by norm_num
    simp [bandPred, obsGap, inBand, hx]
  have h5 : bandPred 301 (some 400) obsGap = false := by
    have hx : ¬ ((301 : ℚ) ≤ 101 / 2) := by norm_num
    simp [bandPred, obsGap, inBand, hx]
  have h6 : bandPred 401 none obsGap = false := by
    have hx : ¬ ((401 : ℚ) ≤ 101 / 2) := by norm_num
    simp [bandPred, obsGap, inBand, hx]
  simp [aqiCategories, List.countP_cons, h1, h2, h3, h4, h5, h6]

/-- C2 (amended): restricted to integer AQI values the six bands do
partition: every Observation whose AQI value is present and a non-negative
integer falls within the inclusive range of exactly one band. -/
theorem aqi_bands_partition_integers (o : Obs) (n : ℕ)
    (haqi : o.aqi = some (n : ℚ)) :
    aqiCategories.countP (fun b => bandPred b.2.1 b.2.2 o) = 1 := by
  have hpred : ∀ b : String × ℚ × Option ℚ,
      bandPred b.2.1 b.2.2 o = inBand b.2.1 b.2.2 (n : ℚ) := by
    intro b
    simp [bandPred, haqi]
  rw [countP_ext _ (fun b => inBand b.2.1 b.2.2 (n : ℚ)) aqiCategories
    (fun b _ => hpred b)]
  have c0 : (0 : ℚ) ≤ (n : ℚ) := Nat.cast_nonneg n
  rcases (show n ≤ 50 ∨ (51 ≤ n ∧ n ≤ 100) ∨ (101 ≤ n ∧ n ≤ 200) ∨
      (201 ≤ n ∧ n ≤ 300) ∨ (301 ≤ n ∧ n ≤ 400) ∨ 401 ≤ n by omega) with
    h | ⟨hl, hu⟩ | ⟨hl, hu⟩ | ⟨hl, hu⟩ | ⟨hl, hu⟩ | h
  · have cu : (n : ℚ) ≤ 50 := by exact_mod_cast h
    have k2 : ¬ ((51 : ℚ) ≤ (n : ℚ)) := by linarith
    have k3 : ¬ ((101 : ℚ) ≤ (n : ℚ)) := by linarith
    have k4 : ¬ ((201 : ℚ) ≤ (n : ℚ)) := by linarith
    have k5 : ¬ ((301 : ℚ) ≤ (n : ℚ)) := by linarith
    have k6 : ¬ ((401 : ℚ) ≤ (n : ℚ)) := by linarith
    simp [aqiCategories, List.countP_cons, inBand, c0, cu, k2, k3, k4, k5, k6]
  · have cl : (51 : ℚ) ≤ (n : ℚ) := by exact_mod_cast hl
    have cu : (n : ℚ) ≤ 100 := by exact_mod_cast hu
    have k1 : ¬ ((n : ℚ) ≤ 50) := by linarith
    have k3 : ¬ ((101 : ℚ) ≤ (n : ℚ)) := by linarith
    have k4 : ¬ ((201 : ℚ) ≤ (n : ℚ)) := by linarith
    have k5 : ¬ ((301 : ℚ) ≤ (n : ℚ)) := by linarith
    have k6 : ¬ ((401 : ℚ) ≤ (n : ℚ)) := by linarith
    simp [aqiCategories, List.countP_cons, inBand, c0, cl, cu, k1, k3, k4, k5, k6]
  · have cl : (101 : ℚ) ≤ (n : ℚ) := by exact_mod_cast hl
    have cu : (n : ℚ) ≤ 200 := by exact_mod_cast hu
    have k1 : ¬ ((n : ℚ) ≤ 50) := by linarith
    have k2 : ¬ ((n : ℚ) ≤ 100) := by linarith
    have k4 : ¬ ((201 : ℚ) ≤ (n : ℚ)) := by linarith
    have k5 : ¬ ((301 : ℚ) ≤ (n : ℚ)) := by linarith
    have k6 : ¬ ((401 : ℚ) ≤ (n : ℚ)) := by linarith
    simp [aqiCategories, List.countP_cons, inBand, c0, cl, cu, k1, k2, k4, k5, k6]
  · have cl : (201 : ℚ) ≤ (n : ℚ) := by exact_mod_cast hl
    have cu : (n : ℚ) ≤ 300 := by exact_mod_cast hu
    have k1 : ¬ ((n : ℚ) ≤ 50) := by linarith
    have k2 : ¬ ((n : ℚ) ≤ 100) := by linarith
    have k3 : ¬ ((n : ℚ) ≤ 200) := by linarith
    have k5 : ¬ ((301 : ℚ) ≤ (n : ℚ)) := by linarith
    have k6 : ¬ ((401 : ℚ) ≤ (n : ℚ)) := by linarith
    simp [aqiCategories, List.countP_cons, inBand, c0, cl, cu, k1, k2, k3, k5, k6]
  · have cl : (301 : ℚ) ≤ (n : ℚ) := by exact_mod_cast hl
    have cu : (n : ℚ) ≤ 400 := by exact_mod_cast hu
    have k1 : ¬ ((n : ℚ) ≤ 50) := by linarith
    have k2 : ¬ ((n : ℚ) ≤ 100) := by linarith
    have k3 : ¬ ((n : ℚ) ≤ 200) := by linarith
    have k4 : ¬ ((n : ℚ) ≤ 300) := by linarith
    have k6 : ¬ ((401 : ℚ) ≤ (n : ℚ)) := by linarith
    simp [aqiCategories, List.countP_cons, inBand, c0, cl, cu, k1, k2, k3, k4, k6]
  · have cl : (401 : ℚ) ≤ (n : ℚ) := by exact_mod_cast h
    have k1 : ¬ ((n : ℚ) ≤ 50) := by linarith
    have k2 : ¬ ((n : ℚ) ≤ 100) := by linarith
    have k3 : ¬ ((n : ℚ) ≤ 200) := by linarith
    have k4 : ¬ ((n : ℚ) ≤ 300) := by linarith
    have k5 : ¬ ((n : ℚ) ≤ 400) := by linarith
    simp [aqiCategories, List.countP_cons, inBand, c0, cl, k1, k2, k3, k4, k5]

/-- C2 (witness): an Observation with present integer AQI value 40 lies in
exactly one band. -/
theorem aqi_bands_partition_integers_witness :
    aqiCategories.countP (fun b => bandPred b.2.1 b.2.2
      ⟨"A", "Jan", 2016, some ((40 : ℕ) : ℚ), ⟨2016, 1, 1⟩⟩) = 1 :=
  aqi_bands_partition_integers ⟨"A", "Jan", 2016, some ((40 : ℕ) : ℚ), ⟨2016, 1, 1⟩⟩ 40 rfl

/-- C3: for a recognized band with bounds `[lo, hi]`, the filtered list is a
sublist of the canonical collection (so it preserves its date-ascending
order); an Observation belongs to it exactly when it belongs to the
collection with a present AQI value satisfying both inclusive bounds (an
infinite upper bound imposing no constraint); Observations with absent AQI
are excluded from every band. -/
theorem filterBand_spec (name : String) (lo : ℚ) (hi : Option ℚ) (l : List Obs)
    (hband : aqiCategories.lookup name = some (lo, hi)) :
    (filterBand lo hi l).Sublist l ∧
    (∀ o : Obs, o ∈ filterBand lo hi l ↔
      o ∈ l ∧ ∃ x : ℚ, o.aqi = some x ∧ lo ≤ x ∧ ∀ h : ℚ, hi = some h → x ≤ h) ∧
    (∀ o ∈ filterBand lo hi l, o.aqi ≠ none) := by
  clear hband
  refine ⟨List.filter_sublist l, ?_, ?_⟩
  · intro o
    rw [filterBand, List.mem_filter, bandPred_eq]
  · intro o ho
    rcases (List.mem_filter.1 ho) with ⟨-, hp⟩
    rcases (bandPred_eq lo hi o).1 hp with ⟨x, hx, -⟩
    rw [hx]
    exact Option.some_ne_none x

/-- C3 (witness): the GOOD band applied to `sampleB`. -/
theorem filterBand_spec_witness :
    (filterBand 0 (some 50) sampleB).Sublist sampleB ∧
    (∀ o : Obs, o ∈ filterBand 0 (some 50) sampleB ↔
      o ∈ sampleB ∧ ∃ x : ℚ, o.aqi = some x ∧ 0 ≤ x ∧
        ∀ h : ℚ, (some 50 : Option ℚ) = some h → x ≤ h) ∧
    (∀ o ∈ filterBand 0 (some 50) sampleB, o.aqi ≠ none) :=
  filterBand_spec "GOOD" 0 (some 50) sampleB rfl

/-- C4: assuming the years of the sources are pairwise distinct and year
`y`'s table has exactly one row per calendar month (its `Month` column is a
permutation of the 12 abbreviations), then for every location `L` appearing
as a column in any year's source the canonical collection contains exactly
12 Observations with that location and year — exactly one per month `m` —
and when `L` is absent from `y`'s own table all of those Observations carry
an absent AQI rather than being dropped. -/
theorem load_data_completeness (srcs : List (Nat × YearTable)) (y : Nat)
    (t : YearTable) (L : String) (m : String) (canonical : List Obs)
    (hnd : (srcs.map Prod.fst).Nodup)
    (hyt : (y, t) ∈ srcs)
    (hmonths : (t.rows.map Prod.fst).Perm monthAbbrevs)
    (hL : L ∈ allLocations srcs)
    (hm : m ∈ monthAbbrevs)
    (hload : load_data srcs = .ok canonical) :
    canonical.countP (fun o => decide (o.location = L ∧ o.year = y)) = 12 ∧
    canonical.countP (fun o => decide (o.location = L ∧ o.year = y ∧ o.month = m)) = 1 ∧
    (L ∉ t.locations → ∀ o ∈ canonical, o.location = L → o.year = y → o.aqi = none) := by
  rcases load_data_ok srcs canonical hload with ⟨os, hp, rfl⟩
  have htrans : ∀ (q : Obs → Bool) (p' : PreObs → Bool),
      (∀ pre mn, monthNumber pre.month = some mn →
        q ⟨pre.location, pre.month, pre.year, pre.aqi, ⟨pre.year, mn, 1⟩⟩ = p' pre) →
      (List.insertionSort obsLe os).countP q = (melt srcs).countP p' := by
    intro q p' hqp
    rw [(List.perm_insertionSort obsLe os).countP_eq]
    exact parseDates_countP (melt srcs) os q p' hqp hp
  have hndloc : ((allLocations srcs).map id).Nodup := by
    simpa using nodup_dedupFirst (concatMap (fun s => s.2.locations) srcs)
  have hrows12 : t.rows.length = 12 := by
    have hlen := hmonths.length_eq
    rw [List.length_map] at hlen
    rw [hlen]
    rfl
  have hmelt1 : (melt srcs).countP (fun p => decide (p.location = L ∧ p.year = y))
      = t.rows.length := by
    have hz1 : ∀ loc ∈ allLocations srcs, id loc ≠ L →
        ((combinedRows srcs).map (mkPre loc)).countP
          (fun p => decide (p.location = L ∧ p.year = y)) = 0 := by
      intro loc hloc hne
      replace hne : loc ≠ L := by simpa using hne
      rw [List.countP_eq_zero]
      intro p hpmem
      rcases List.mem_map.1 hpmem with ⟨r, hrm, rfl⟩
      simp [mkPre, hne]
    rw [melt, countP_concatMap,
      sum_map_eq_single (allLocations srcs) _ id L L hndloc hL rfl hz1,
      List.countP_map,
      countP_ext _ (fun r => decide (r.2.1 = y)) (combinedRows srcs)
        (by intro r hr; simp [mkPre, Function.comp])]
    have hz2 : ∀ s ∈ srcs, Prod.fst s ≠ y →
        (s.2.rows.map (fun r => (r.1, s.1, s.2.locations.zip r.2))).countP
          (fun r => decide (r.2.1 = y)) = 0 := by
      intro s hs hsne
      rw [List.countP_eq_zero]
      intro r hrm
      rcases List.mem_map.1 hrm with ⟨row, hrow, rfl⟩
      simp [hsne]
    rw [combinedRows, countP_concatMap,
      sum_map_eq_single srcs _ Prod.fst y (y, t) hnd hyt rfl hz2,
      List.countP_map,
      countP_ext _ (fun _ => true) t.rows (by intro r hr; simp [Function.comp])]
    simp
  have hmelt2 : (melt srcs).countP
      (fun p => decide (p.location = L ∧ p.year = y ∧ p.month = m)) = 1 := by
    have hz1 : ∀ loc ∈ allLocations srcs, id loc ≠ L →
        ((combinedRows srcs).map (mkPre loc)).countP
          (fun p => decide (p.location = L ∧ p.year = y ∧ p.month = m)) = 0 := by
      intro loc hloc hne
      replace hne : loc ≠ L := by simpa using hne
      rw [List.countP_eq_zero]
      intro p hpmem
      rcases List.mem_map.1 hpmem with ⟨r, hrm, rfl⟩
      simp [mkPre, hne]
    rw [melt, countP_concatMap,
      sum_map_eq_single (allLocations srcs) _ id L L hndloc hL rfl hz1,
      List.countP_map,
      countP_ext _ (fun r => decide (r.2.1 = y ∧ r.1 = m)) (combinedRows srcs)
        (by intro r hr; simp [mkPre, Function.comp, and_comm])]
    have hz2 : ∀ s ∈ srcs, Prod.fst s ≠ y →
        (s.2.rows.map (fun r => (r.1, s.1, s.2.locations.zip r.2))).countP
          (fun r => decide (r.2.1 = y ∧ r.1 = m)) = 0 := by
      intro s hs hsne
      rw [List.countP_eq_zero]
      intro r hrm
      rcases List.mem_map.1 hrm with ⟨row, hrow, rfl⟩
      simp [hsne]
    rw [combinedRows, countP_concatMap,
      sum_map_eq_single srcs _ Prod.fst y (y, t) hnd hyt rfl hz2,
      List.countP_map,
      countP_ext _ (fun row => decide (row.1 = m)) t.rows
        (by intro r hr; simp [Function.comp])]
    have hmap : t.rows.countP (fun row => decide (row.1 = m))
        = (t.rows.map Prod.fst).countP (fun s => decide (s = m)) := by
      rw [List.countP_map]
      rfl
    rw [hmap, hmonths.countP_eq]
    simp only [monthAbbrevs] at hm
    fin_cases hm <;> decide
  refine ⟨?_, ?_, ?_⟩
  · rw [htrans _ (fun p => decide (p.location = L ∧ p.year = y))
      (fun pre mn hmn => rfl), hmelt1, hrows12]
  · rw [htrans _ (fun p => decide (p.location = L ∧ p.year = y ∧ p.month = m))
      (fun pre mn hmn => rfl), hmelt2]
  · intro hLnot o ho hLo hyo
    have ho' : o ∈ os := (List.perm_insertionSort obsLe os).mem_iff.1 ho
    rcases parseDates_mem_src (melt srcs) os hp o ho' with
      ⟨p, hpmelt, hloc, hmon, hyr, haqi⟩
    rcases (mem_concatMap _ _ _).1 hpmelt with ⟨loc, hlocmem, hpblock⟩
    rcases List.mem_map.1 hpblock with ⟨r, hrcomb, rfl⟩
    rcases (mem_concatMap _ _ _).1 hrcomb with ⟨s, hsmem, hrrow⟩
    rcases List.mem_map.1 hrrow with ⟨row, hrowmem, rfl⟩
    simp only [mkPre] at hloc hyr haqi
    have hlocL : loc = L := hloc.symm.trans hLo
    have hsy : s.1 = y := hyr.symm.trans hyo
    have hs_eq : s = (y, t) := eq_of_fst_nodup srcs hnd s (y, t) hsmem hyt hsy
    rw [haqi, hlocL, hs_eq]
    exact getCell_not_mem t.locations row.2 L hLnot

/-- C4 (witness): a full-year single-location source yields 12 Observations
for `("A", 2016)`, exactly one of them for January. -/
theorem load_data_completeness_witness :
    fullCanonical.countP (fun o => decide (o.location = "A" ∧ o.year = 2016)) = 12 ∧
    fullCanonical.countP
      (fun o => decide (o.location = "A" ∧ o.year = 2016 ∧ o.month = "Jan")) = 1 ∧
    ("A" ∉ fullTable.locations →
      ∀ o ∈ fullCanonical, o.location = "A" → o.year = 2016 → o.aqi = none) :=
  load_data_completeness fullSrcs 2016 fullTable "A" "Jan" fullCanonical
    (by decide) (by decide) (by decide) (by decide) (by decide) rfl

/-- C5: a successfully loaded canonical collection is sorted ascending by
`Date`: every adjacent pair satisfies `Date[i] <= Date[i+1]`. -/
theorem load_data_sorted_by_date (srcs : List (Nat × YearTable))
    (canonical : List Obs) (h : load_data srcs = .ok canonical) :
    canonical.Chain' obsLe := by
  rcases load_data_ok srcs canonical h with ⟨os, -, rfl⟩
  exact (List.sorted_insertionSort obsLe os).chain'

/-- C5 (witness): the collection loaded from `sampleSrcs` is date-sorted. -/
theorem load_data_sorted_by_date_witness : sampleCanonical.Chain' obsLe :=
  load_data_sorted_by_date sampleSrcs sampleCanonical rfl

/-- C7: the loader is deterministic and idempotent — two runs on the same
unchanged sources yield the identical canonical collection, the same rows
in the same order. -/
theorem load_data_deterministic (srcs : List (Nat × YearTable))
    (l1 l2 : List Obs)
    (h1 : load_data srcs = .ok l1) (h2 : load_data srcs = .ok l2) : l1 = l2 := by
  rw [h1] at h2
  injection h2

/-- C7 (witness): two loads of `sampleSrcs` agree. -/
theorem load_data_deterministic_witness : sampleCanonical = sampleCanonical :=
  load_data_deterministic sampleSrcs sampleCanonical sampleCanonical rfl rfl

/-- C8 (counterexample): as stated the claim fails in a degenerate corner:
`monthlessSrcs` contains the unrecognized `Month` value `"Jann"`, yet the
loader succeeds (with an empty collection) because no source has a location
column, so the melted frame is empty and the date conversion parses
nothing. -/
theorem load_data_bad_month_no_columns :
    (∃ s ∈ monthlessSrcs, ∃ r ∈ s.2.rows, monthNumber r.1 = none) ∧
    load_data monthlessSrcs = .ok [] :=
  ⟨by decide, rfl⟩

/-- C8 (amended): provided at least one location column occurs across the
sources, any unrecognized `Month` value in any source makes the loader fail
with a `DateParseError` naming an offending unrecognized month, and no
canonical collection — not even a partial one — is produced. -/
theorem load_data_bad_month_aborts (srcs : List (Nat × YearTable)) (y : Nat)
    (t : YearTable) (r : String × List (Option ℚ))
    (hmem : (y, t) ∈ srcs) (hr : r ∈ t.rows) (hbad : monthNumber r.1 = none)
    (hloc : allLocations srcs ≠ []) :
    ∃ e : DateParseError, load_data srcs = .error e ∧ monthNumber e.month = none ∧
      ∀ l : List Obs, load_data srcs ≠ .ok l := by
  obtain ⟨loc, hlocmem⟩ : ∃ loc, loc ∈ allLocations srcs := by
    cases hall : allLocations srcs with
    | nil => exact absurd hall hloc
    | cons a l => exact ⟨a, hall ▸ List.mem_cons_self a l⟩
  have hcomb : (r.1, y, t.locations.zip r.2) ∈ combinedRows srcs := by
    apply (mem_concatMap _ _ _).2
    exact ⟨(y, t), hmem, List.mem_map_of_mem _ hr⟩
  have hpre : mkPre loc (r.1, y, t.locations.zip r.2) ∈ melt srcs := by
    apply (mem_concatMap _ _ _).2
    exact ⟨loc, hlocmem, List.mem_map_of_mem _ hcomb⟩
  rcases parseDates_error_of_bad (melt srcs) ⟨_, hpre, hbad⟩ with ⟨e, he, hem⟩
  refine ⟨e, ?_, hem, ?_⟩
  · simp only [load_data, he]
  · intro l hl
    simp only [load_data, he] at hl
    exact Except.noConfusion hl

/-- C8 (witness): the `"Jann"` source with a location column aborts. -/
theorem load_data_bad_month_aborts_witness :
    ∃ e : DateParseError, load_data badSrcs = .error e ∧
      monthNumber e.month = none ∧ ∀ l : List Obs, load_data badSrcs ≠ .ok l :=
  load_data_bad_month_aborts badSrcs 2016 badTable ("Jann", [some 40])
    (by decide) (by decide) (by decide) (by decide)

/-- C9: band lookup never silently defaults: any name outside the six keys
of the enumeration looks up to nothing (the classifier raises), the key set
is exactly the six fixed names, and each of the six names looks up to its
band's bounds. -/
theorem aqiCategories_lookup_spec :
    (∀ name : String, name ∉ aqiCategories.map Prod.fst →
      aqiCategories.lookup name = none) ∧
    aqiCategories.map Prod.fst =
      ["GOOD", "SATISFACTORY", "MODERATE", "POOR", "VERY POOR", "SEVERE"] ∧
    aqiCategories.lookup "GOOD" = some (0, some 50) ∧
    aqiCategories.lookup "SATISFACTORY" = some (51, some 100) ∧
    aqiCategories.lookup "MODERATE" = some (101, some 200) ∧
    aqiCategories.lookup "POOR" = some (201, some 300) ∧
    aqiCategories.lookup "VERY POOR" = some (301, some 400) ∧
    aqiCategories.lookup "SEVERE" = some (401, none) := by
  refine ⟨?_, rfl, rfl, rfl, rfl, rfl, rfl, rfl⟩
  intro name hname
  exact lookup_none_of_not_mem_keys aqiCategories name hname

/-- C9 (witness): an unrecognized name fails, a recognized one succeeds with
its bounds. -/
theorem aqiCategories_lookup_spec_witness :
    aqiCategories.lookup "UNKNOWN" = none ∧
    aqiCategories.lookup "GOOD" = some (0, some 50) :=
  ⟨aqiCategories_lookup_spec.1 "UNKNOWN" (by decide),
   aqiCategories_lookup_spec.2.2.1⟩

/-- C10: every Observation of a successfully loaded canonical collection
carries as `Date` the first day of the calendar month named by its
`(Year, Month)` pair, so Observations agreeing on `Year` and `Month` have
exactly equal `Date` values. -/
theorem obs_date_from_year_month (srcs : List (Nat × YearTable))
    (canonical : List Obs) (h : load_data srcs = .ok canonical) :
    (∀ o ∈ canonical, ∃ mn, monthNumber o.month = some mn ∧
      o.date = ⟨o.year, mn, 1⟩) ∧
    (∀ o ∈ canonical, ∀ o' ∈ canonical,
      o.year = o'.year → o.month = o'.month → o.date = o'.date) := by
  rcases load_data_ok srcs canonical h with ⟨os, hp, rfl⟩
  have hmem : ∀ o ∈ List.insertionSort obsLe os, o ∈ os := fun o ho =>
    (List.perm_insertionSort obsLe os).mem_iff.1 ho
  constructor
  · intro o ho
    exact parseDates_mem (melt srcs) os hp o (hmem o ho)
  · intro o ho o' ho' hy hmo
    rcases parseDates_mem (melt srcs) os hp o (hmem o ho) with ⟨mn, hmn, hd⟩
    rcases parseDates_mem (melt srcs) os hp o' (hmem o' ho') with ⟨mn', hmn', hd'⟩
    rw [hmo, hmn'] at hmn
    injection hmn with hmm
    rw [hd, hd', hy, hmm]

/-- C10 (witness): the dates of the collection loaded from `sampleSrcs` are
derived from their `(Year, Month)` pairs. -/
theorem obs_date_from_year_month_witness :
    (∀ o ∈ sampleCanonical, ∃ mn, monthNumber o.month = some mn ∧
      o.date = ⟨o.year, mn, 1⟩) ∧
    (∀ o ∈ sampleCanonical, ∀ o' ∈ sampleCanonical,
      o.year = o'.year → o.month = o'.month → o.date = o'.date) :=
  obs_date_from_year_month sampleSrcs sampleCanonical rfl

end HydAir
